import Mathlib

/-!
Verification of the squadron command-tree dispatcher (src/squadron/__init__.py).

The module builds a tree of Namespace / Command / RawCommand nodes and compiles
it into argparse parsers.  Dispatch works by registering, on every node that has
subcommands, one positional argument named "command" with
nargs=argparse.PARSER, bound to the custom action _Subaction.  The development
below embeds the tree model, the registration operations and the compiled
dispatch semantics.

Python dictionaries (used for Node._subcommands, _SubcommandList.commands,
argparse.Namespace attributes and _RawParser._defaults) are embedded as ordered
association lists where insertion with an existing key replaces the value in
place, exactly matching dict assignment semantics.

The behaviour of the external argparse engine at the integration points the
code relies on is embedded faithfully to CPython argparse:
  - a positional added through ArgumentParser.add_argument with nargs=PARSER is
    required, so parsing zero tokens at such a parser is an error
    ("the following arguments are required: command"), exiting with status 2;
  - the choices check runs inside argparse before the bound action is called,
    so a first token matching no choice is an error naming the token and
    listing the choices ("invalid choice: ... (choose from ...)"), status 2;
  - tokens left over at a parser with no dispatch positional are an
    "unrecognized arguments" error, status 2;
  - action defaults and parser defaults are applied to the fresh namespace
    before parsing, each only when the attribute is not present yet, and
    ArgumentParser.set_defaults also overrides the default of an action with a
    matching dest, so the value passed to set_defaults(func=...) always wins
    over argument-declared defaults for the same dest;
  - parser.error prints a message and exits the process with status 2.
These facts were checked against CPython 3.11 argparse.
-/

namespace Squadron

/-- Value stored in a parsed argument record (an argparse.Namespace attribute).
Functions bound to the record (the func attribute) are identified by a tag:
either the help-printing default closure of a node (funcHelp, carrying the
name of the node whose help it prints) or a command function (funcAction,
carrying an opaque function identity). -/
inductive Value : Type where
  | str (s : String)
  | strs (l : List String)
  | funcHelp (node : String)
  | funcAction (fn : Nat)
deriving Repr, DecidableEq

/-- Record of parsed arguments: the attributes of an argparse.Namespace,
as an ordered association list with unique keys. -/
abbrev Record := List (String × Value)

/-- Dictionary insertion: models Python dict assignment d[k] = v.  An existing
key keeps its position and gets the new value; a new key is appended. -/
def dictInsert {α : Type} (k : String) (v : α) : List (String × α) → List (String × α)
  | [] => [(k, v)]
  | (k1, v1) :: rest =>
      if k1 = k then (k, v) :: rest else (k1, v1) :: dictInsert k v rest

/-- Dictionary lookup: models Python dict indexing d[k]. -/
def dictLookup {α : Type} (k : String) : List (String × α) → Option α
  | [] => none
  | (k1, v1) :: rest => if k1 = k then some v1 else dictLookup k rest

/-- Keys of a dictionary, in order: models list(d.keys()). -/
def dictKeys {α : Type} (l : List (String × α)) : List String :=
  l.map Prod.fst

/-- Values of a dictionary, in order: models list(d.values()). -/
def dictValues {α : Type} (l : List (String × α)) : List α :=
  l.map Prod.snd

/-- Merge of a parsed sub-record into the current record: models the loop
at the end of _Subaction.__call__ (for k, v in vars(subnamespace).items():
setattr(namespace, k, v)), and equally any sequence of setattr calls.
Entries of the second record are written one by one over the first, so on a
key collision the second (child) record wins. -/
def mergeRecord (base : Record) (sub : Record) : Record :=
  sub.foldl (fun acc kv => dictInsert kv.1 kv.2 acc) base

/-- Application of argparse action defaults to a fresh namespace: argparse sets
each default in registration order, and only when the attribute is not already
present (if not hasattr(namespace, action.dest)), so among argument-declared
defaults for the same dest the first one wins. -/
def applyActionDefaults (base : Record) (defaults : List (String × Value)) : Record :=
  defaults.foldl
    (fun acc kv => if (dictLookup kv.1 acc).isSome then acc else acc ++ [kv]) base

/-- Modifier (the cmdopt option protocol).  command_name models the
command_name class (overwrites the node name in init_namespace / init_cmd);
argument models the argument class, reduced to the data the record model
needs: the destination attribute and the declared default value contributed
through parser.add_argument in init_args.  Token-consuming flag syntax of the
argparse engine is outside the embedded fragment; the claims only exercise
defaults. -/
inductive Mod : Type where
  | command_name (name : String)
  | argument (dest : String) (defaultVal : Value)
deriving Repr, DecidableEq

/-- Entries a modifier contributes to a parser through init_args:
command_name inherits the no-op cmdopt.init_args, argument adds its
declared default for its destination. -/
def Mod.initArgsEntries : Mod → List (String × Value)
  | .command_name _ => []
  | .argument dest v => [(dest, v)]

/-- Defaults contributed by a node option list, in declaration order:
models the loop for opt in self._opts: opt.init_args(parser). -/
def optDefaults (opts : List Mod) : List (String × Value) :=
  opts.foldl (fun acc m => acc ++ m.initArgsEntries) []

/-- Node of the command tree.  ns models class Namespace (name, doc, stored
options, _subcommands dict); cmd models class Command (name, bound function,
doc, stored options, _subcommands dict); raw models class RawCommand (name,
bound function, doc; no _subcommands).  Bound Python functions are represented
by an opaque identity (Nat). -/
inductive Node : Type where
  | ns (name : String) (doc : String) (opts : List Mod) (subs : List (String × Node))
  | cmd (name : String) (fn : Nat) (doc : String) (opts : List Mod) (subs : List (String × Node))
  | raw (name : String) (fn : Nat) (doc : String)
deriving Repr

/-- Name attribute of a node. -/
def Node.name : Node → String
  | .ns n _ _ _ => n
  | .cmd n _ _ _ _ => n
  | .raw n _ _ => n

/-- Subcommand dictionary of a node (_subcommands); a RawCommand has none. -/
def Node.subcommands : Node → List (String × Node)
  | .ns _ _ _ subs => subs
  | .cmd _ _ _ _ subs => subs
  | .raw _ _ _ => []

/-- Overwrite of the name attribute (ns.name = ... / cmd.name = ...). -/
def Node.setName : Node → String → Node
  | .ns _ d o s, nm => .ns nm d o s
  | .cmd _ f d o s, nm => .cmd nm f d o s
  | .raw _ f d, nm => .raw nm f d

/-- Effect of a modifier at namespace construction (cmdopt.init_namespace):
command_name overwrites the name, argument inherits the no-op default. -/
def Mod.initNamespace (m : Mod) (n : Node) : Node :=
  match m with
  | .command_name s => n.setName s
  | .argument _ _ => n

/-- Effect of a modifier at command construction (cmdopt.init_cmd):
command_name overwrites the name, argument inherits the no-op default. -/
def Mod.initCmd (m : Mod) (n : Node) : Node :=
  match m with
  | .command_name s => n.setName s
  | .argument _ _ => n

/-- Constructor of class Namespace: stores name, doc defaulting to the name,
the option list and an empty subcommand dict, then runs
opt.init_namespace(self) for every option in order. -/
def mkNamespace (name : String) (opts : List Mod) : Node :=
  opts.foldl (fun n m => m.initNamespace n) (Node.ns name name opts [])

/-- Function root(*opts): a standalone anonymous root namespace. -/
def root (opts : List Mod) : Node :=
  mkNamespace "" opts

/-- Method add_subcommand: on a Namespace or Command
(_namespaced.add_subcommand) it stores the child in the _subcommands dict
under the current name of the child, replacing any entry with that key and
never failing; on a RawCommand (RawCommand.add_subcommand) it raises
immediately. -/
def Node.add_subcommand : Node → Node → Except String Node
  | .ns n d o subs, sub => .ok (.ns n d o (dictInsert sub.name sub subs))
  | .cmd n f d o subs, sub => .ok (.cmd n f d o (dictInsert sub.name sub subs))
  | .raw _ _ _, _ => .error "Can not add subcommands to raw commands"

/-- Method add_subcommands: adds a list of children left to right (for cmd in
cmds: self.add_subcommand(cmd)), stopping at the first raised error. -/
def Node.add_subcommands (n : Node) : List Node → Except String Node
  | [] => .ok n
  | c :: cs =>
      match n.add_subcommand c with
      | .error e => .error e
      | .ok n2 => n2.add_subcommands cs

/-- Bound Python function value for the command decorator: its dunder name
and an opaque identity. -/
structure Fn where
  name : String
  fn : Nat
deriving Repr, DecidableEq

/-- Class of node the command decorator builds (the cmdclass parameter of
_make_command): Command or RawCommand. -/
inductive CmdKind : Type where
  | command
  | rawCommand
deriving Repr, DecidableEq

/-- Construction cmdclass(fn.__name__, fn, *opts): a Command stores the option
list, an empty subcommand dict and an empty doc; a RawCommand ignores the
options entirely (its constructor discards *args, **kwargs). -/
def mkCmdNode (k : CmdKind) (f : Fn) (opts : List Mod) : Node :=
  match k with
  | .command => .cmd f.name f.fn "" opts []
  | .rawCommand => .raw f.name f.fn ""

/-- Argument passed to the command / rawcommand decorator factory: either a
modifier object or a bare callable (the decorated function itself). -/
inductive MakeArg : Type where
  | modifier (m : Mod)
  | callableFn (f : Fn)
deriving Repr, DecidableEq

/-- Modifier view of a decorator argument. -/
def MakeArg.asMod : MakeArg → Option Mod
  | .modifier m => some m
  | .callableFn _ => none

/-- Result of _make_command: either the constructed node together with the
updated namespace (the single-bare-callable special case, where do(fn) runs
at once), or a decorator closure characterised by its captured modifier list,
whose later application to a function runs makeCommandDo. -/
inductive MakeResult : Type where
  | immediate (res : Except String (Node × Node))
  | decorator (opts : List Mod)

/-- Body of the inner function do(fn) of _make_command: builds
cmdclass(fn.__name__, fn, *opts), runs opt.init_cmd(cmd) for every option in
order, adds the node to the current namespace with add_subcommand, and
returns the node (paired here with the updated namespace, since the Python
method mutates self). -/
def makeCommandDo (self : Node) (k : CmdKind) (opts : List Mod) (f : Fn) :
    Except String (Node × Node) :=
  let c0 := mkCmdNode k f opts
  let c1 := opts.foldl (fun c m => m.initCmd c) c0
  (self.add_subcommand c1).map (fun self2 => (c1, self2))

/-- Method _make_command(cmdclass, *opts): when opts is exactly one bare
callable, that callable is the function to wrap and do(fn) runs immediately
with an empty option list; otherwise the decorator do is returned, capturing
the given modifiers. -/
def Node.make_command (self : Node) (k : CmdKind) (opts : List MakeArg) : MakeResult :=
  match opts with
  | [MakeArg.callableFn f] => .immediate (makeCommandDo self k [] f)
  | args => .decorator (args.filterMap MakeArg.asMod)

/-- Method command(*opts): the sub-command decorator for Command nodes. -/
def Node.command (self : Node) (opts : List MakeArg) : MakeResult :=
  self.make_command .command opts

/-- Method rawcommand(*opts): the sub-command decorator for RawCommand
nodes. -/
def Node.rawcommand (self : Node) (opts : List MakeArg) : MakeResult :=
  self.make_command .rawCommand opts

/-- Subparser dictionary built by _add_subparsers: for cmd in
self._subcommands.values(): cmd._add_subparser(subparsers), where each call
registers the compiled child under the current name of the child
(subparsers.commands[name] = parser).  The dispatch choices and routing use
this dictionary, keyed by node names at compilation time. -/
def subparserMap (subs : List (String × Node)) : List (String × Node) :=
  subs.foldl (fun acc kc => dictInsert kc.2.name kc.2 acc) []

/-- Errors signalled through the argparse error channel during dispatch; every
one of them makes argparse print a message and exit the process with
status 2.  missingCommand is the required-positional failure for the dispatch
positional ("the following arguments are required: command") raised when a
parser carrying subcommands receives zero tokens; invalidChoice is the
argparse choices check ("argument command: invalid choice: token
(choose from choices)"), which fires before _Subaction runs; the
unrecognizedArguments error is the parse_args leftover check at a parser with
no dispatch positional. -/
inductive ParseErr : Type where
  | missingCommand
  | invalidChoice (token : String) (choices : List String)
  | unrecognizedArguments (extra : List String)
deriving Repr, DecidableEq

/-- Lookup of a key in a dictionary returns one of its values. -/
theorem dictLookup_mem_values {α : Type} {k : String} {v : α} :
    ∀ {l : List (String × α)}, dictLookup k l = some v → v ∈ dictValues l := by
  intro l
  induction l with
  | nil => intro h; simp [dictLookup] at h
  | cons hd tl ih =>
    intro h
    simp only [dictLookup] at h
    by_cases hk : hd.1 = k
    · rw [if_pos hk] at h
      cases h
      simp [dictValues]
    · rw [if_neg hk] at h
      simp only [dictValues, List.map_cons, List.mem_cons]
      exact Or.inr (ih h)

/-- Values of a dictionary after an insertion are the inserted value or old
values. -/
theorem mem_values_dictInsert {α : Type} {k : String} {v c : α} :
    ∀ {l : List (String × α)}, c ∈ dictValues (dictInsert k v l) →
      c = v ∨ c ∈ dictValues l := by
  intro l
  induction l with
  | nil => intro h; simpa [dictInsert, dictValues] using h
  | cons hd tl ih =>
    intro h
    simp only [dictInsert] at h
    by_cases hk : hd.1 = k
    · rw [if_pos hk] at h
      simp only [dictValues, List.map_cons, List.mem_cons] at h ⊢
      tauto
    · rw [if_neg hk] at h
      simp only [dictValues, List.map_cons, List.mem_cons] at h ⊢
      rcases h with h | h
      · tauto
      · rcases ih h with h2 | h2 <;> tauto

/-- Values of the subparser dictionary all come from the subcommand
dictionary (or from the fold accumulator). -/
theorem mem_values_subparserMap_aux {c : Node} :
    ∀ (l acc : List (String × Node)),
      c ∈ dictValues (List.foldl (fun a kc => dictInsert kc.2.name kc.2 a) acc l) →
      c ∈ dictValues acc ∨ c ∈ dictValues l := by
  intro l
  induction l with
  | nil => intro acc h; exact Or.inl h
  | cons hd tl ih =>
    intro acc h
    rcases ih (dictInsert hd.2.name hd.2 acc) h with h2 | h2
    · rcases mem_values_dictInsert h2 with h3 | h3
      · subst h3; simp [dictValues]
      · exact Or.inl h3
    · simp only [dictValues, List.map_cons, List.mem_cons]
      tauto

/-- Values of the subparser dictionary are subcommand values. -/
theorem mem_values_subparserMap {c : Node} {subs : List (String × Node)}
    (h : c ∈ dictValues (subparserMap subs)) : c ∈ dictValues subs := by
  rcases mem_values_subparserMap_aux subs [] h with h2 | h2
  · simp [dictValues] at h2
  · exact h2

/-- Size bound for dictionary values, used for dispatch termination. -/
theorem sizeOf_lt_of_mem_values {c : Node} :
    ∀ {l : List (String × Node)}, c ∈ dictValues l → sizeOf c < sizeOf l := by
  intro l
  induction l with
  | nil => intro h; simp [dictValues] at h
  | cons hd tl ih =>
    intro h
    simp only [dictValues, List.map_cons, List.mem_cons] at h
    rcases h with h | h
    · subst h
      cases hd with
      | mk k v => simp; omega
    · have := ih h
      simp
      omega

/-- Compiled parse of a node applied to a token vector: the composition of
_init_argparse (Namespace or Command flavour) with parse_args of the
resulting parser, or _RawParser.parse_args for a RawCommand.

For a RawCommand, _RawParser.parse_args sets the stored defaults (func bound
to the raw function by RawCommand._add_subparser) on a fresh namespace and
then binds the whole residual token vector, verbatim, to the fixed
destination "raw" (the dest _SubcommandList.add_rawparser passes to
_RawParser).

For a Namespace or Command, the record starts from the argparse defaults:
the argument-modifier defaults in option order (each applied only when the
attribute is absent), then func from set_defaults, bound to the
help-print-then-exit(1) closure for a Namespace and to the command function
for a Command; set_defaults overrides any argument-declared default for the
dest func, so a plain dictInsert of func is exact.  When the node has no
subcommands, _add_subparsers adds nothing: zero residual tokens parse to the
default record, any residual token is an argparse "unrecognized arguments"
error.  When the node has subcommands, the dispatch positional (nargs=PARSER,
action=_Subaction, choices from the subparser dictionary) is required: zero
tokens are the required-argument error; otherwise the first token is checked
against the choices (error naming the token and the choices when it matches
none), then _Subaction binds it to the attribute "command", parses the
residual tokens with the chosen subparser and merges the sub-record over the
current record, the sub-record winning every collision. -/
def parseNode : Node → List String → Except ParseErr Record
  | Node.raw _ fn _, tokens =>
      Except.ok (dictInsert "raw" (Value.strs tokens)
        (dictInsert "func" (Value.funcAction fn) []))
  | Node.ns nm _ opts subs, tokens =>
      let rec0 : Record :=
        dictInsert "func" (Value.funcHelp nm) (applyActionDefaults [] (optDefaults opts))
      match subs with
      | [] =>
          if tokens.isEmpty then Except.ok rec0
          else Except.error (ParseErr.unrecognizedArguments tokens)
      | s :: ss =>
          match tokens with
          | [] => Except.error ParseErr.missingCommand
          | tok :: rest =>
              match h : dictLookup tok (subparserMap (s :: ss)) with
              | none =>
                  Except.error (ParseErr.invalidChoice tok (dictKeys (subparserMap (s :: ss))))
              | some child =>
                  match parseNode child rest with
                  | Except.error e => Except.error e
                  | Except.ok sub =>
                      Except.ok (mergeRecord (dictInsert "command" (Value.str tok) rec0) sub)
  | Node.cmd _ fn _ opts subs, tokens =>
      let rec0 : Record :=
        dictInsert "func" (Value.funcAction fn) (applyActionDefaults [] (optDefaults opts))
      match subs with
      | [] =>
          if tokens.isEmpty then Except.ok rec0
          else Except.error (ParseErr.unrecognizedArguments tokens)
      | s :: ss =>
          match tokens with
          | [] => Except.error ParseErr.missingCommand
          | tok :: rest =>
              match h : dictLookup tok (subparserMap (s :: ss)) with
              | none =>
                  Except.error (ParseErr.invalidChoice tok (dictKeys (subparserMap (s :: ss))))
              | some child =>
                  match parseNode child rest with
                  | Except.error e => Except.error e
                  | Except.ok sub =>
                      Except.ok (mergeRecord (dictInsert "command" (Value.str tok) rec0) sub)
termination_by n _ => sizeOf n
decreasing_by
  all_goals
    have hmem := sizeOf_lt_of_mem_values (mem_values_subparserMap (dictLookup_mem_values h))
    simp at hmem ⊢
    omega

/-- Outcome of a full run: models Namespace.run followed by args.func(args).
A parse error is the argparse error channel (message plus process exit with
status 2); helpExit is the bound default closure of a namespace-like parser
(parser.print_help() then exit(1)); invoked is the call of a command function
with the merged record; attributeError covers a record with no func
attribute (unreachable for compiled trees, where every parser sets a func
default). -/
inductive RunResult : Type where
  | usageError (e : ParseErr)
  | helpExit (node : String)
  | invoked (fn : Nat) (args : Record)
  | attributeError
deriving Repr, DecidableEq

/-- Method Namespace.run(parser, args): compile the tree into the parser,
parse the token vector and call the bound func attribute of the result. -/
def Node.run (n : Node) (tokens : List String) : RunResult :=
  match parseNode n tokens with
  | Except.error e => RunResult.usageError e
  | Except.ok r =>
      match dictLookup "func" r with
      | some (Value.funcHelp prog) => RunResult.helpExit prog
      | some (Value.funcAction fn) => RunResult.invoked fn r
      | _ => RunResult.attributeError

/-- Command function invoked by a run, when one is. -/
def RunResult.invokedAction : RunResult → Option Nat
  | .invoked fn _ => some fn
  | _ => none

/-- Process exit status produced by a run outcome: argparse errors exit with
status 2, the namespace default action exits with status 1 after printing
help, a completed command action falls through to a normal exit. -/
def RunResult.exitCode : RunResult → Option Nat
  | .usageError _ => some 2
  | .helpExit _ => some 1
  | .invoked _ _ => none
  | .attributeError => none

/-- Trace of the token vectors seen along the dispatch recursion of
parseNode: the current vector, followed by the trace of the chosen child on
the residual vector whenever the node has subcommands, the vector is
nonempty and its first token resolves in the subparser dictionary; in every
other case the recursion stops at the current node. -/
def parseTrace : Node → List String → List (List String)
  | n, tokens =>
      tokens ::
        (match n, tokens with
          | Node.ns _ _ _ (s :: ss), tok :: rest =>
              (match h : dictLookup tok (subparserMap (s :: ss)) with
                | some child => parseTrace child rest
                | none => [])
          | Node.cmd _ _ _ _ (s :: ss), tok :: rest =>
              (match h : dictLookup tok (subparserMap (s :: ss)) with
                | some child => parseTrace child rest
                | none => [])
          | _, _ => [])
termination_by n _ => sizeOf n
decreasing_by
  all_goals
    have hmem := sizeOf_lt_of_mem_values (mem_values_subparserMap (dictLookup_mem_values h))
    simp at hmem ⊢
    omega

/-- Unfolding of merge on an empty sub-record. -/
theorem mergeRecord_nil {base : Record} : mergeRecord base [] = base := rfl

/-- Unfolding of merge entry by entry. -/
theorem mergeRecord_cons {base : Record} {a : String} {b : Value} {tl : Record} :
    mergeRecord base ((a, b) :: tl) = mergeRecord (dictInsert a b base) tl := rfl

/-- Lookup after an insertion: the inserted key maps to the inserted value,
every other key is unaffected. -/
theorem dictLookup_dictInsert {α : Type} {k k1 : String} {v : α} :
    ∀ {l : List (String × α)},
      dictLookup k (dictInsert k1 v l) = if k1 = k then some v else dictLookup k l := by
  intro l
  induction l with
  | nil => simp [dictInsert, dictLookup]
  | cons hd tl ih =>
    cases hd with
    | mk a b =>
      by_cases h1 : a = k1
      · subst h1
        by_cases h2 : a = k <;> simp [dictInsert, dictLookup, h2]
      · by_cases h2 : a = k
        · subst h2
          have hk1 : ¬(k1 = a) := fun h => h1 h.symm
          simp [dictInsert, dictLookup, h1, hk1]
        · simp [dictInsert, dictLookup, h1, h2, ih]

/-- Insertion never produces an empty dictionary. -/
theorem dictInsert_ne_nil {α : Type} {k : String} {v : α} :
    ∀ {l : List (String × α)}, dictInsert k v l ≠ [] := by
  intro l
  cases l with
  | nil => simp [dictInsert]
  | cons hd tl =>
    cases hd with
    | mk a b =>
      simp only [dictInsert]
      by_cases h : a = k <;> simp [h]

/-- Keys after an insertion are the old keys plus possibly the new key. -/
theorem mem_dictKeys_dictInsert {α : Type} {k k1 : String} {v : α} :
    ∀ {l : List (String × α)}, k ∈ dictKeys (dictInsert k1 v l) →
      k = k1 ∨ k ∈ dictKeys l := by
  intro l
  induction l with
  | nil => intro h; simpa [dictInsert, dictKeys] using h
  | cons hd tl ih =>
    intro h
    cases hd with
    | mk a b =>
      simp only [dictInsert] at h
      by_cases h1 : a = k1
      · rw [if_pos h1] at h
        simp only [dictKeys, List.map_cons, List.mem_cons] at h ⊢
        tauto
      · rw [if_neg h1] at h
        simp only [dictKeys, List.map_cons, List.mem_cons] at h ⊢
        rcases h with h | h
        · tauto
        · rcases ih h with h2 | h2 <;> tauto

/-- Insertion preserves uniqueness of dictionary keys. -/
theorem nodup_dictKeys_dictInsert {α : Type} {k : String} {v : α} :
    ∀ {l : List (String × α)}, (dictKeys l).Nodup →
      (dictKeys (dictInsert k v l)).Nodup := by
  intro l
  induction l with
  | nil => intro h; simp [dictInsert, dictKeys]
  | cons hd tl ih =>
    intro h
    cases hd with
    | mk a b =>
      simp only [dictKeys, List.map_cons, List.nodup_cons] at h
      by_cases h1 : a = k
      · subst h1
        have h3 : dictInsert a v ((a, b) :: tl) = (a, v) :: tl := by simp [dictInsert]
        rw [h3]
        simpa [dictKeys, List.nodup_cons] using h
      · simp only [dictInsert, if_neg h1, dictKeys, List.map_cons, List.nodup_cons]
        constructor
        · intro hmem
          rcases mem_dictKeys_dictInsert hmem with h2 | h2
          · exact h1 h2
          · exact h.1 h2
        · exact ih h.2

/-- Record building preserves uniqueness of keys: merging (a fold of
insertions) keeps the key list duplicate-free. -/
theorem nodup_dictKeys_mergeRecord :
    ∀ {sub base : Record}, (dictKeys base).Nodup → (dictKeys (mergeRecord base sub)).Nodup := by
  intro sub
  induction sub with
  | nil => intro base h; rw [mergeRecord_nil]; exact h
  | cons hd tl ih =>
    intro base h
    cases hd with
    | mk a b =>
      rw [mergeRecord_cons]
      exact ih (nodup_dictKeys_dictInsert h)

/-- Merge does not touch keys the merged sub-record does not bind. -/
theorem dictLookup_mergeRecord_of_not_mem {k : String} :
    ∀ {sub : Record}, k ∉ dictKeys sub →
      ∀ {base : Record}, dictLookup k (mergeRecord base sub) = dictLookup k base := by
  intro sub
  induction sub with
  | nil => intro _ base; rw [mergeRecord_nil]
  | cons hd tl ih =>
    intro hk base
    cases hd with
    | mk a b =>
      simp only [dictKeys, List.map_cons, List.mem_cons, not_or] at hk
      rw [mergeRecord_cons, ih hk.2, dictLookup_dictInsert, if_neg (fun h => hk.1 h.symm)]

/-- Child-wins merge: a key the sub-record binds keeps the value of the
sub-record after the merge, whatever the base record bound it to.  This is
the observable content of the setattr loop of _Subaction.__call__. -/
theorem dictLookup_mergeRecord_of_lookup {k : String} {v : Value} :
    ∀ {sub : Record}, (dictKeys sub).Nodup → dictLookup k sub = some v →
      ∀ {base : Record}, dictLookup k (mergeRecord base sub) = some v := by
  intro sub
  induction sub with
  | nil => intro _ hv base; simp [dictLookup] at hv
  | cons hd tl ih =>
    intro hnodup hv base
    cases hd with
    | mk a b =>
      simp only [dictKeys, List.map_cons, List.nodup_cons] at hnodup
      simp only [dictLookup] at hv
      by_cases h1 : a = k
      · rw [if_pos h1] at hv
        subst h1
        cases hv
        have hnk : a ∉ dictKeys tl := hnodup.1
        rw [mergeRecord_cons, dictLookup_mergeRecord_of_not_mem hnk, dictLookup_dictInsert,
          if_pos rfl]
      · rw [if_neg h1] at hv
        rw [mergeRecord_cons]
        exact ih hnodup.2 hv

/-- Keys appearing after the defaults pass come from the base record or from
the defaults list. -/
theorem mem_dictKeys_applyActionDefaults {k : String} {ds : List (String × Value)} :
    ∀ {base : Record}, k ∈ dictKeys (applyActionDefaults base ds) →
      k ∈ dictKeys base ∨ k ∈ ds.map Prod.fst := by
  induction ds with
  | nil => intro base h; exact Or.inl h
  | cons hd tl ih =>
    intro base h
    simp only [applyActionDefaults, List.foldl_cons] at h
    by_cases hs : (dictLookup hd.1 base).isSome
    · rw [if_pos hs] at h
      rcases ih h with h2 | h2
      · exact Or.inl h2
      · simp only [List.map_cons, List.mem_cons]; tauto
    · rw [if_neg hs] at h
      rcases ih h with h2 | h2
      · simp only [dictKeys, List.map_append, List.mem_append] at h2
        rcases h2 with h3 | h3
        · exact Or.inl h3
        · simp only [List.map_cons, List.mem_cons]
          simp [dictKeys] at h3
          tauto
      · simp only [List.map_cons, List.mem_cons]; tauto

/-- A key is present in a dictionary exactly when lookup finds it. -/
theorem dictLookup_isSome_iff_mem {α : Type} {k : String} :
    ∀ {l : List (String × α)}, (dictLookup k l).isSome ↔ k ∈ dictKeys l := by
  intro l
  induction l with
  | nil => simp [dictLookup, dictKeys]
  | cons hd tl ih =>
    cases hd with
    | mk a b =>
      simp only [dictKeys, List.map_cons, List.mem_cons] at ih ⊢
      by_cases h : a = k
      · subst h
        simp [dictLookup]
      · simp only [dictLookup, if_neg h]
        rw [ih]
        constructor
        · exact fun h2 => Or.inr h2
        · rintro (h2 | h2)
          · exact absurd h2.symm h
          · exact h2

/-- Applying action defaults preserves uniqueness of record keys: an entry is
appended only when its key is absent. -/
theorem nodup_dictKeys_applyActionDefaults {ds : List (String × Value)} :
    ∀ {base : Record}, (dictKeys base).Nodup →
      (dictKeys (applyActionDefaults base ds)).Nodup := by
  induction ds with
  | nil => intro base h; simpa [applyActionDefaults] using h
  | cons hd tl ih =>
    intro base h
    simp only [applyActionDefaults, List.foldl_cons] at ih ⊢
    by_cases hs : (dictLookup hd.1 base).isSome
    · rw [if_pos hs]
      exact ih h
    · rw [if_neg hs]
      refine ih ?_
      simp only [dictKeys, List.map_append] at h ⊢
      rw [List.nodup_append]
      refine ⟨h, by simp, ?_⟩
      intro x hx
      simp only [List.map_cons, List.map_nil, List.mem_singleton]
      intro hx1
      subst hx1
      rw [dictLookup_isSome_iff_mem] at hs
      exact hs hx

/-- Keys of the record a node parser starts from are unique. -/
theorem nodup_dictKeys_nodeRecord {fv : Value} {opts : List Mod} :
    (dictKeys (dictInsert "func" fv (applyActionDefaults [] (optDefaults opts)))).Nodup :=
  nodup_dictKeys_dictInsert (nodup_dictKeys_applyActionDefaults (by simp [dictKeys]))

/-- Insertion with a fresh key appends the entry at the end of the
dictionary. -/
theorem dictInsert_eq_append {α : Type} {k : String} {v : α} :
    ∀ {l : List (String × α)}, k ∉ dictKeys l → dictInsert k v l = l ++ [(k, v)] := by
  intro l
  induction l with
  | nil => intro _; simp [dictInsert]
  | cons hd tl ih =>
    intro h
    cases hd with
    | mk a b =>
      simp only [dictKeys, List.map_cons, List.mem_cons, not_or] at h
      have hak : ¬(a = k) := fun h2 => h.1 h2.symm
      simp only [dictInsert, if_neg hak, List.cons_append, List.cons.injEq, true_and]
      exact ih h.2

/-- Name-consistent dictionary: every child is registered under its own
name.  This invariant holds for every subcommand dictionary reachable through
the registration API, since add_subcommand keys each child by its current
name and renames happen at construction, before insertion. -/
def nameConsistent (l : List (String × Node)) : Prop :=
  ∀ p ∈ l, Node.name p.2 = p.1

/-- On a name-consistent subcommand dictionary with unique keys, the
subparser dictionary built by _add_subparsers coincides with the subcommand
dictionary itself. -/
theorem subparserMap_eq_self_aux :
    ∀ (tl acc : List (String × Node)), nameConsistent tl →
      (dictKeys (acc ++ tl)).Nodup →
      List.foldl (fun a kc => dictInsert kc.2.name kc.2 a) acc tl = acc ++ tl := by
  intro tl
  induction tl with
  | nil => intro acc _ _; simp
  | cons hd tl2 ih =>
    intro acc hname hnodup
    simp only [List.foldl_cons]
    have hhd : hd.2.name = hd.1 := hname hd (by simp)
    have hfresh : hd.1 ∉ dictKeys acc := by
      have h2 := hnodup
      simp only [dictKeys, List.map_append, List.nodup_append, List.map_cons] at h2
      intro hmem
      exact h2.2.2 hmem (by simp)
    have hstep : dictInsert hd.2.name hd.2 acc = acc ++ [hd] := by
      rw [hhd, dictInsert_eq_append hfresh]
    rw [hstep]
    have htail : nameConsistent tl2 := fun p hp => hname p (by simp [hp])
    have hnodup2 : (dictKeys (acc ++ [hd] ++ tl2)).Nodup := by
      simpa [dictKeys, List.append_assoc] using hnodup
    rw [ih (acc ++ [hd]) htail hnodup2]
    simp

/-- Subparser dictionary of a well-formed subcommand dictionary. -/
theorem subparserMap_eq_self {subs : List (String × Node)}
    (hname : nameConsistent subs) (hnodup : (dictKeys subs).Nodup) :
    subparserMap subs = subs := by
  have := subparserMap_eq_self_aux subs [] hname (by simpa using hnodup)
  simpa [subparserMap] using this

/-- Unfolding of the raw parse: defaults then the verbatim residual
capture. -/
theorem parseNode_raw (nm : String) (fn : Nat) (doc : String) (tokens : List String) :
    parseNode (Node.raw nm fn doc) tokens
      = Except.ok [("func", Value.funcAction fn), ("raw", Value.strs tokens)] := by
  simp [parseNode, dictInsert]

/-- Unfolding of the parse of a childless namespace. -/
theorem parseNode_ns_leaf (nm doc : String) (opts : List Mod) (tokens : List String) :
    parseNode (Node.ns nm doc opts []) tokens
      = if tokens.isEmpty then
          Except.ok (dictInsert "func" (Value.funcHelp nm)
            (applyActionDefaults [] (optDefaults opts)))
        else Except.error (ParseErr.unrecognizedArguments tokens) := by
  rw [parseNode.eq_def]

/-- Unfolding of the parse of a childless command. -/
theorem parseNode_cmd_leaf (nm : String) (fn : Nat) (doc : String) (opts : List Mod)
    (tokens : List String) :
    parseNode (Node.cmd nm fn doc opts []) tokens
      = if tokens.isEmpty then
          Except.ok (dictInsert "func" (Value.funcAction fn)
            (applyActionDefaults [] (optDefaults opts)))
        else Except.error (ParseErr.unrecognizedArguments tokens) := by
  rw [parseNode.eq_def]

/-- Zero tokens at a namespace with children: the required dispatch
positional is missing. -/
theorem parseNode_ns_cons_nil (nm doc : String) (opts : List Mod) (s : String × Node)
    (ss : List (String × Node)) :
    parseNode (Node.ns nm doc opts (s :: ss)) [] = Except.error ParseErr.missingCommand := by
  rw [parseNode.eq_def]

/-- Zero tokens at a command with children: the required dispatch positional
is missing. -/
theorem parseNode_cmd_cons_nil (nm : String) (fn : Nat) (doc : String) (opts : List Mod)
    (s : String × Node) (ss : List (String × Node)) :
    parseNode (Node.cmd nm fn doc opts (s :: ss)) [] = Except.error ParseErr.missingCommand := by
  rw [parseNode.eq_def]

/-- First token unresolved at a namespace with children: the argparse
invalid-choice error, naming the token and the compiled child names. -/
theorem parseNode_ns_cons_none (nm doc : String) (opts : List Mod) (s : String × Node)
    (ss : List (String × Node)) (tok : String) (rest : List String)
    (hq : dictLookup tok (subparserMap (s :: ss)) = none) :
    parseNode (Node.ns nm doc opts (s :: ss)) (tok :: rest)
      = Except.error (ParseErr.invalidChoice tok (dictKeys (subparserMap (s :: ss)))) := by
  rw [parseNode.eq_def]
  simp only []
  split
  · rfl
  · rename_i child h
    rw [hq] at h
    cases h

/-- First token unresolved at a command with children. -/
theorem parseNode_cmd_cons_none (nm : String) (fn : Nat) (doc : String) (opts : List Mod)
    (s : String × Node) (ss : List (String × Node)) (tok : String) (rest : List String)
    (hq : dictLookup tok (subparserMap (s :: ss)) = none) :
    parseNode (Node.cmd nm fn doc opts (s :: ss)) (tok :: rest)
      = Except.error (ParseErr.invalidChoice tok (dictKeys (subparserMap (s :: ss)))) := by
  rw [parseNode.eq_def]
  simp only []
  split
  · rfl
  · rename_i child h
    rw [hq] at h
    cases h

/-- First token resolved at a namespace with children: _Subaction binds the
token to the attribute "command", parses the residual tokens with the chosen
subparser and merges the sub-record over the current record. -/
theorem parseNode_ns_cons_some (nm doc : String) (opts : List Mod) (s : String × Node)
    (ss : List (String × Node)) (tok : String) (rest : List String) (child : Node)
    (hq : dictLookup tok (subparserMap (s :: ss)) = some child) :
    parseNode (Node.ns nm doc opts (s :: ss)) (tok :: rest)
      = match parseNode child rest with
        | Except.error e => Except.error e
        | Except.ok sub =>
            Except.ok (mergeRecord
              (dictInsert "command" (Value.str tok)
                (dictInsert "func" (Value.funcHelp nm)
                  (applyActionDefaults [] (optDefaults opts))))
              sub) := by
  rw [parseNode.eq_def]
  simp only []
  split
  · rename_i h
    rw [hq] at h
    cases h
  · rename_i child2 h
    rw [hq] at h
    cases h
    rfl

/-- First token resolved at a command with children. -/
theorem parseNode_cmd_cons_some (nm : String) (fn : Nat) (doc : String) (opts : List Mod)
    (s : String × Node) (ss : List (String × Node)) (tok : String) (rest : List String)
    (child : Node)
    (hq : dictLookup tok (subparserMap (s :: ss)) = some child) :
    parseNode (Node.cmd nm fn doc opts (s :: ss)) (tok :: rest)
      = match parseNode child rest with
        | Except.error e => Except.error e
        | Except.ok sub =>
            Except.ok (mergeRecord
              (dictInsert "command" (Value.str tok)
                (dictInsert "func" (Value.funcAction fn)
                  (applyActionDefaults [] (optDefaults opts))))
              sub) := by
  rw [parseNode.eq_def]
  simp only []
  split
  · rename_i h
    rw [hq] at h
    cases h
  · rename_i child2 h
    rw [hq] at h
    cases h
    rfl

/-- C8: adding a child to a RawCommand raises "Can not add subcommands to raw
commands" immediately, at registration time, for every raw command and every
candidate child; no updated node is produced, so the raw command (which owns
no subcommand dictionary at all) is unchanged by the failed attempt, and the
failure cannot be deferred to dispatch time. -/
theorem C8_raw_add_subcommand_fails_at_registration (nm : String) (fn : Nat) (doc : String)
    (sub : Node) :
    Node.add_subcommand (Node.raw nm fn doc) sub
        = Except.error "Can not add subcommands to raw commands" ∧
      (Node.raw nm fn doc).subcommands = [] :=
  ⟨rfl, rfl⟩

/-- C1, evaluated at the failing input: a namespace with one child that
receives zero remaining tokens does not reach its bound default help action;
the required dispatch positional makes argparse fail with the
"the following arguments are required: command" error and exit status 2,
not a help print with exit status 1 as the spec states.  By contrast a
namespace with zero children does reach the default action (help print,
exit status 1), which is the behaviour the code's own docstrings intend for
every namespace. -/
theorem C1_branching_node_zero_tokens_is_required_arg_error :
    Node.run (Node.ns "" "" [] [("sub", Node.cmd "sub" 7 "" [] [])]) []
        = RunResult.usageError ParseErr.missingCommand ∧
      RunResult.exitCode
          (Node.run (Node.ns "" "" [] [("sub", Node.cmd "sub" 7 "" [] [])]) [])
        = some 2 ∧
      Node.run (Node.ns "" "" [] []) [] = RunResult.helpExit "" ∧
      RunResult.exitCode (Node.run (Node.ns "" "" [] []) []) = some 1 := by
  refine ⟨?_, ?_, ?_, ?_⟩
  · simp [Node.run, parseNode]
  · simp [Node.run, parseNode, RunResult.exitCode]
  · simp [Node.run, parseNode, dictInsert, dictLookup, optDefaults, applyActionDefaults]
  · simp [Node.run, parseNode, dictInsert, dictLookup, optDefaults, applyActionDefaults,
      RunResult.exitCode]

/-- C5: dispatch through a namespace into a raw command strips the tokens
that selected the path (the namespace name and the raw command name) and
binds exactly the remaining tokens, verbatim and in order, as a single
string sequence under the fixed attribute "raw", with no flag interpretation
or coercion, before invoking the raw command function: for every names,
every declared options on the path and every residual token vector.  For the
option-free tree the full merged record is computed literally. -/
theorem C5_raw_command_captures_residual_tokens_verbatim
    (rootName rootDoc nsName nsDoc rawName rawDoc : String) (rawFn : Nat)
    (pOpts dOpts : List Mod) (rest : List String) :
    (∃ r, Node.run
        (Node.ns rootName rootDoc pOpts
          [(nsName, Node.ns nsName nsDoc dOpts [(rawName, Node.raw rawName rawFn rawDoc)])])
        (nsName :: rawName :: rest)
      = RunResult.invoked rawFn r ∧ dictLookup "raw" r = some (Value.strs rest)) ∧
      Node.run
        (Node.ns rootName rootDoc []
          [(nsName, Node.ns nsName nsDoc [] [(rawName, Node.raw rawName rawFn rawDoc)])])
        (nsName :: rawName :: rest)
      = RunResult.invoked rawFn
          [("func", Value.funcAction rawFn), ("command", Value.str rawName),
            ("raw", Value.strs rest)] := by
  constructor
  · have hq2g : dictLookup rawName (subparserMap [(rawName, Node.raw rawName rawFn rawDoc)])
        = some (Node.raw rawName rawFn rawDoc) := by
      simp [subparserMap, dictInsert, Node.name, dictLookup]
    have hp2g : parseNode
        (Node.ns nsName nsDoc dOpts [(rawName, Node.raw rawName rawFn rawDoc)])
        (rawName :: rest)
        = Except.ok (mergeRecord
            (dictInsert "command" (Value.str rawName)
              (dictInsert "func" (Value.funcHelp nsName)
                (applyActionDefaults [] (optDefaults dOpts))))
            [("func", Value.funcAction rawFn), ("raw", Value.strs rest)]) := by
      rw [parseNode_ns_cons_some nsName nsDoc dOpts _ [] rawName rest _ hq2g, parseNode_raw]
    have hq1g : dictLookup nsName
        (subparserMap
          [(nsName, Node.ns nsName nsDoc dOpts [(rawName, Node.raw rawName rawFn rawDoc)])])
        = some (Node.ns nsName nsDoc dOpts [(rawName, Node.raw rawName rawFn rawDoc)]) := by
      simp [subparserMap, dictInsert, Node.name, dictLookup]
    have hp1g : parseNode
        (Node.ns rootName rootDoc pOpts
          [(nsName, Node.ns nsName nsDoc dOpts [(rawName, Node.raw rawName rawFn rawDoc)])])
        (nsName :: rawName :: rest)
        = Except.ok (mergeRecord
            (dictInsert "command" (Value.str nsName)
              (dictInsert "func" (Value.funcHelp rootName)
                (applyActionDefaults [] (optDefaults pOpts))))
            (mergeRecord
              (dictInsert "command" (Value.str rawName)
                (dictInsert "func" (Value.funcHelp nsName)
                  (applyActionDefaults [] (optDefaults dOpts))))
              [("func", Value.funcAction rawFn), ("raw", Value.strs rest)])) := by
      rw [parseNode_ns_cons_some rootName rootDoc pOpts _ [] nsName (rawName :: rest) _ hq1g,
        hp2g]
    have hnodupRaw : (dictKeys
        ([("func", Value.funcAction rawFn), ("raw", Value.strs rest)] : Record)).Nodup := by
      simp [dictKeys]
    have hraw_sub : dictLookup "raw" (mergeRecord
        (dictInsert "command" (Value.str rawName)
          (dictInsert "func" (Value.funcHelp nsName)
            (applyActionDefaults [] (optDefaults dOpts))))
        [("func", Value.funcAction rawFn), ("raw", Value.strs rest)])
        = some (Value.strs rest) :=
      dictLookup_mergeRecord_of_lookup hnodupRaw (by simp [dictLookup])
    have hfunc_sub : dictLookup "func" (mergeRecord
        (dictInsert "command" (Value.str rawName)
          (dictInsert "func" (Value.funcHelp nsName)
            (applyActionDefaults [] (optDefaults dOpts))))
        [("func", Value.funcAction rawFn), ("raw", Value.strs rest)])
        = some (Value.funcAction rawFn) :=
      dictLookup_mergeRecord_of_lookup hnodupRaw (by simp [dictLookup])
    have hnodup_sub : (dictKeys (mergeRecord
        (dictInsert "command" (Value.str rawName)
          (dictInsert "func" (Value.funcHelp nsName)
            (applyActionDefaults [] (optDefaults dOpts))))
        [("func", Value.funcAction rawFn), ("raw", Value.strs rest)])).Nodup :=
      nodup_dictKeys_mergeRecord (nodup_dictKeys_dictInsert nodup_dictKeys_nodeRecord)
    refine ⟨mergeRecord
        (dictInsert "command" (Value.str nsName)
          (dictInsert "func" (Value.funcHelp rootName)
            (applyActionDefaults [] (optDefaults pOpts))))
        (mergeRecord
          (dictInsert "command" (Value.str rawName)
            (dictInsert "func" (Value.funcHelp nsName)
              (applyActionDefaults [] (optDefaults dOpts))))
          [("func", Value.funcAction rawFn), ("raw", Value.strs rest)]),
      ?_, dictLookup_mergeRecord_of_lookup hnodup_sub hraw_sub⟩
    simp [Node.run, hp1g, dictLookup_mergeRecord_of_lookup hnodup_sub hfunc_sub]
  ·
    have hq2 : dictLookup rawName (subparserMap [(rawName, Node.raw rawName rawFn rawDoc)])
        = some (Node.raw rawName rawFn rawDoc) := by
      simp [subparserMap, dictInsert, Node.name, dictLookup]
    have hp2 : parseNode (Node.ns nsName nsDoc [] [(rawName, Node.raw rawName rawFn rawDoc)])
        (rawName :: rest)
        = Except.ok [("func", Value.funcAction rawFn), ("command", Value.str rawName),
            ("raw", Value.strs rest)] := by
      rw [parseNode_ns_cons_some nsName nsDoc [] _ [] rawName rest _ hq2, parseNode_raw]
      simp [mergeRecord, dictInsert, applyActionDefaults, optDefaults]
    have hq1 : dictLookup nsName
        (subparserMap
          [(nsName, Node.ns nsName nsDoc [] [(rawName, Node.raw rawName rawFn rawDoc)])])
        = some (Node.ns nsName nsDoc [] [(rawName, Node.raw rawName rawFn rawDoc)]) := by
      simp [subparserMap, dictInsert, Node.name, dictLookup]
    have hp1 : parseNode
        (Node.ns rootName rootDoc []
          [(nsName, Node.ns nsName nsDoc [] [(rawName, Node.raw rawName rawFn rawDoc)])])
        (nsName :: rawName :: rest)
        = Except.ok [("func", Value.funcAction rawFn), ("command", Value.str rawName),
            ("raw", Value.strs rest)] := by
      rw [parseNode_ns_cons_some rootName rootDoc [] _ [] nsName (rawName :: rest) _ hq1, hp2]
      simp [mergeRecord, dictInsert, applyActionDefaults, optDefaults]
    simp [Node.run, hp1, dictLookup]

/-- C3: a branching node (namespace or command with children) reached with a
first residual token that matches no compiled child name fails through the
argparse error channel with an invalid-choice condition that names the
offending token and lists the valid child names, and no command action is
invoked. -/
theorem C3_unknown_subcommand_names_token_and_choices
    (nm doc : String) (opts : List Mod) (s : String × Node) (ss : List (String × Node))
    (fn : Nat) (tok : String) (rest : List String)
    (hmiss : dictLookup tok (subparserMap (s :: ss)) = none) :
    Node.run (Node.ns nm doc opts (s :: ss)) (tok :: rest)
        = RunResult.usageError
            (ParseErr.invalidChoice tok (dictKeys (subparserMap (s :: ss)))) ∧
      Node.run (Node.cmd nm fn doc opts (s :: ss)) (tok :: rest)
        = RunResult.usageError
            (ParseErr.invalidChoice tok (dictKeys (subparserMap (s :: ss)))) ∧
      RunResult.invokedAction
          (Node.run (Node.ns nm doc opts (s :: ss)) (tok :: rest)) = none ∧
      RunResult.invokedAction
          (Node.run (Node.cmd nm fn doc opts (s :: ss)) (tok :: rest)) = none := by
  have hns := parseNode_ns_cons_none nm doc opts s ss tok rest hmiss
  have hcmd := parseNode_cmd_cons_none nm fn doc opts s ss tok rest hmiss
  refine ⟨?_, ?_, ?_, ?_⟩ <;>
    simp [Node.run, hns, hcmd, RunResult.invokedAction]

/-- C3 witness: the spec example, a root with one child named build invoked
with the misspelled token buidl. -/
theorem C3_witness :
    Node.run (Node.ns "" "" [] [("build", Node.cmd "build" 3 "" [] [])]) ["buidl"]
        = RunResult.usageError (ParseErr.invalidChoice "buidl" ["build"]) ∧
      RunResult.invokedAction
          (Node.run (Node.ns "" "" [] [("build", Node.cmd "build" 3 "" [] [])]) ["buidl"])
        = none := by
  have h := C3_unknown_subcommand_names_token_and_choices "" ""
    [] ("build", Node.cmd "build" 3 "" [] []) [] 0 "buidl" []
    (by simp [subparserMap, dictInsert, dictLookup, Node.name])
  have hmap : subparserMap [("build", Node.cmd "build" 3 "" [] [])]
      = [("build", Node.cmd "build" 3 "" [] [])] := by
    simp [subparserMap, dictInsert, Node.name]
  refine ⟨?_, h.2.2.1⟩
  have h1 := h.1
  rw [hmap] at h1
  simpa [dictKeys] using h1

/-- Run of a namespace whose first token resolves to a childless command:
the command record is merged over the namespace record and the command
function is invoked with the merged record. -/
theorem run_ns_selects_leaf_cmd (nm doc cn : String) (cf : Nat) (cd : String)
    (cOpts pOpts : List Mod) (children : List (String × Node)) (hne : children ≠ [])
    (hq : dictLookup cn (subparserMap children) = some (Node.cmd cn cf cd cOpts [])) :
    Node.run (Node.ns nm doc pOpts children) [cn]
      = RunResult.invoked cf
          (mergeRecord
            (dictInsert "command" (Value.str cn)
              (dictInsert "func" (Value.funcHelp nm)
                (applyActionDefaults [] (optDefaults pOpts))))
            (dictInsert "func" (Value.funcAction cf)
              (applyActionDefaults [] (optDefaults cOpts)))) := by
  cases children with
  | nil => exact absurd rfl hne
  | cons s ss =>
    have hchild : parseNode (Node.cmd cn cf cd cOpts []) []
        = Except.ok (dictInsert "func" (Value.funcAction cf)
            (applyActionDefaults [] (optDefaults cOpts))) := by
      rw [parseNode_cmd_leaf]
      simp
    have hp : parseNode (Node.ns nm doc pOpts (s :: ss)) [cn]
        = Except.ok (mergeRecord
            (dictInsert "command" (Value.str cn)
              (dictInsert "func" (Value.funcHelp nm)
                (applyActionDefaults [] (optDefaults pOpts))))
            (dictInsert "func" (Value.funcAction cf)
              (applyActionDefaults [] (optDefaults cOpts)))) := by
      rw [parseNode_ns_cons_some nm doc pOpts s ss cn [] _ hq, hchild]
    have hfunc : dictLookup "func"
        (mergeRecord
          (dictInsert "command" (Value.str cn)
            (dictInsert "func" (Value.funcHelp nm)
              (applyActionDefaults [] (optDefaults pOpts))))
          (dictInsert "func" (Value.funcAction cf)
            (applyActionDefaults [] (optDefaults cOpts))))
        = some (Value.funcAction cf) :=
      dictLookup_mergeRecord_of_lookup nodup_dictKeys_nodeRecord
        (by rw [dictLookup_dictInsert]; simp)
    simp [Node.run, hp, hfunc]

/-- Run of a namespace on a first token that resolves to no compiled child:
no action is invoked. -/
theorem run_ns_unknown_token (nm doc tok : String) (pOpts : List Mod)
    (children : List (String × Node)) (hne : children ≠ []) (rest : List String)
    (hq : dictLookup tok (subparserMap children) = none) :
    RunResult.invokedAction (Node.run (Node.ns nm doc pOpts children) (tok :: rest))
      = none := by
  cases children with
  | nil => exact absurd rfl hne
  | cons s ss =>
    have hp := parseNode_ns_cons_none nm doc pOpts s ss tok rest hq
    simp [Node.run, hp, RunResult.invokedAction]

/-- C4: when dispatch descends from a parent node into a child command and
both bind the same record field (here through declared defaults), the value
the invoked action sees for that field is the one of the child record, which
is merged over the parent record after it. -/
theorem C4_child_record_wins_on_name_collision
    (pn pd : String) (pOpts : List Mod) (cn : String) (cf : Nat) (cd : String)
    (cOpts : List Mod) (k : String) (vp vc : Value)
    (hparent : dictLookup k (dictInsert "func" (Value.funcHelp pn)
        (applyActionDefaults [] (optDefaults pOpts))) = some vp)
    (hchild : dictLookup k (dictInsert "func" (Value.funcAction cf)
        (applyActionDefaults [] (optDefaults cOpts))) = some vc) :
    ∃ r, Node.run (Node.ns pn pd pOpts [(cn, Node.cmd cn cf cd cOpts [])]) [cn]
        = RunResult.invoked cf r ∧ dictLookup k r = some vc := by
  have hq : dictLookup cn (subparserMap [(cn, Node.cmd cn cf cd cOpts [])])
      = some (Node.cmd cn cf cd cOpts []) := by
    simp [subparserMap, dictInsert, Node.name, dictLookup]
  have hrun := run_ns_selects_leaf_cmd pn pd cn cf cd cOpts pOpts
    [(cn, Node.cmd cn cf cd cOpts [])] (by simp) hq
  exact ⟨_, hrun, dictLookup_mergeRecord_of_lookup nodup_dictKeys_nodeRecord hchild⟩

/-- C4 witness: the spec example, a parent declaring a verbose default and a
child declaring a different verbose default; after dispatch the child value
is bound. -/
theorem C4_witness :
    ∃ r, Node.run
        (Node.ns "" "" [Mod.argument "verbose" (Value.str "parent")]
          [("child", Node.cmd "child" 5 "" [Mod.argument "verbose" (Value.str "child")] [])])
        ["child"]
      = RunResult.invoked 5 r ∧ dictLookup "verbose" r = some (Value.str "child") :=
  C4_child_record_wins_on_name_collision "" "" [Mod.argument "verbose" (Value.str "parent")]
    "child" 5 "" [Mod.argument "verbose" (Value.str "child")] "verbose"
    (Value.str "parent") (Value.str "child")
    (by simp [dictInsert, applyActionDefaults, optDefaults, Mod.initArgsEntries, dictLookup])
    (by simp [dictInsert, applyActionDefaults, optDefaults, Mod.initArgsEntries, dictLookup])

/-- Run of a namespace whose first token resolves to a childless command but
whose residual token vector is nonempty: the chosen command parser declares
nothing that could consume the residual, so its parse_args fails with the
argparse unrecognized-arguments error (process exit status 2) and no action
is invoked. -/
theorem run_ns_leaf_child_extra_tokens (nm doc cn : String) (cf : Nat) (cd : String)
    (cOpts pOpts : List Mod) (children : List (String × Node)) (hne : children ≠ [])
    (rest : List String) (hrest : rest ≠ [])
    (hq : dictLookup cn (subparserMap children) = some (Node.cmd cn cf cd cOpts [])) :
    Node.run (Node.ns nm doc pOpts children) (cn :: rest)
      = RunResult.usageError (ParseErr.unrecognizedArguments rest) := by
  cases children with
  | nil => exact absurd rfl hne
  | cons s ss =>
    have hchild : parseNode (Node.cmd cn cf cd cOpts []) rest
        = Except.error (ParseErr.unrecognizedArguments rest) := by
      rw [parseNode_cmd_leaf]
      cases rest with
      | nil => exact absurd rfl hrest
      | cons r rs => simp
    have hp : parseNode (Node.ns nm doc pOpts (s :: ss)) (cn :: rest)
        = Except.error (ParseErr.unrecognizedArguments rest) := by
      rw [parseNode_ns_cons_some nm doc pOpts s ss cn rest _ hq, hchild]
    simp [Node.run, hp]

/-- Complete outcome set of dispatching a first token that resolves to a
childless command, over every residual token vector: the command action runs
exactly when the residual is empty, actions different from it never run, and
a nonempty residual is the unrecognized-arguments error. -/
theorem run_ns_leaf_child_outcomes (nm doc cn : String) (cf fb fc : Nat) (cd : String)
    (cOpts pOpts : List Mod) (children : List (String × Node)) (hne : children ≠ [])
    (rest : List String) (hb : cf ≠ fb) (hc : cf ≠ fc)
    (hq : dictLookup cn (subparserMap children) = some (Node.cmd cn cf cd cOpts [])) :
    RunResult.invokedAction (Node.run (Node.ns nm doc pOpts children) [cn]) = some cf ∧
      RunResult.invokedAction (Node.run (Node.ns nm doc pOpts children) (cn :: rest))
        ≠ some fb ∧
      RunResult.invokedAction (Node.run (Node.ns nm doc pOpts children) (cn :: rest))
        ≠ some fc ∧
      (rest ≠ [] → Node.run (Node.ns nm doc pOpts children) (cn :: rest)
          = RunResult.usageError (ParseErr.unrecognizedArguments rest)) := by
  refine ⟨?_, ?_, ?_, ?_⟩
  · rw [run_ns_selects_leaf_cmd nm doc cn cf cd cOpts pOpts children hne hq]
    rfl
  · cases rest with
    | nil =>
      rw [run_ns_selects_leaf_cmd nm doc cn cf cd cOpts pOpts children hne hq]
      intro hcon
      exact hb (Option.some.inj hcon)
    | cons r rs =>
      rw [run_ns_leaf_child_extra_tokens nm doc cn cf cd cOpts pOpts children hne (r :: rs)
        (by simp) hq]
      simp [RunResult.invokedAction]
  · cases rest with
    | nil =>
      rw [run_ns_selects_leaf_cmd nm doc cn cf cd cOpts pOpts children hne hq]
      intro hcon
      exact hc (Option.some.inj hcon)
    | cons r rs =>
      rw [run_ns_leaf_child_extra_tokens nm doc cn cf cd cOpts pOpts children hne (r :: rs)
        (by simp) hq]
      simp [RunResult.invokedAction]
  · intro hrest
    cases rest with
    | nil => exact absurd rfl hrest
    | cons r rs =>
      exact run_ns_leaf_child_extra_tokens nm doc cn cf cd cOpts pOpts children hne (r :: rs)
        (by simp) hq

/-- C2, as amended: a namespace with the three declared children a, b and c,
registered through add_subcommands in any of the six sibling orders,
dispatches every token vector whose first token is a only through child a:
the action of b or c is never invoked; exactly the action of a is invoked
when the vector is exactly [a]; and a nonempty residual at the childless,
argument-free child a makes argparse fail with the unrecognized-arguments
error, invoking nothing. -/
theorem C2_first_token_routes_only_through_child_a
    (fa fb fc : Nat) (l : List Node) (res : Node) (rest : List String)
    (horder :
      l = [Node.cmd "a" fa "" [] [], Node.cmd "b" fb "" [] [], Node.cmd "c" fc "" [] []] ∨
      l = [Node.cmd "a" fa "" [] [], Node.cmd "c" fc "" [] [], Node.cmd "b" fb "" [] []] ∨
      l = [Node.cmd "b" fb "" [] [], Node.cmd "a" fa "" [] [], Node.cmd "c" fc "" [] []] ∨
      l = [Node.cmd "b" fb "" [] [], Node.cmd "c" fc "" [] [], Node.cmd "a" fa "" [] []] ∨
      l = [Node.cmd "c" fc "" [] [], Node.cmd "a" fa "" [] [], Node.cmd "b" fb "" [] []] ∨
      l = [Node.cmd "c" fc "" [] [], Node.cmd "b" fb "" [] [], Node.cmd "a" fa "" [] []])
    (hadd : Node.add_subcommands (root []) l = Except.ok res)
    (hab : fa ≠ fb) (hac : fa ≠ fc) :
    RunResult.invokedAction (Node.run res ["a"]) = some fa ∧
      RunResult.invokedAction (Node.run res ("a" :: rest)) ≠ some fb ∧
      RunResult.invokedAction (Node.run res ("a" :: rest)) ≠ some fc ∧
      (rest ≠ [] → Node.run res ("a" :: rest)
          = RunResult.usageError (ParseErr.unrecognizedArguments rest)) := by
  rcases horder with h | h | h | h | h | h <;>
    (subst h
     simp [Node.add_subcommands, Node.add_subcommand, root, mkNamespace, Node.name,
       dictInsert] at hadd
     subst hadd
     exact run_ns_leaf_child_outcomes "" "" "a" fa fb fc "" [] [] _ (by simp) rest hab hac
       (by simp [subparserMap, dictInsert, Node.name, dictLookup]))

/-- C2 counterexample to the claim as stated: with children a, b, c and the
token vector [a, x], whose first token is a, dispatch does not invoke the
action bound to a (nor any action); argparse fails with the
unrecognized-arguments error at the parser of a. -/
theorem C2_counterexample_residual_tokens :
    Node.add_subcommands (root [])
        [Node.cmd "a" 1 "" [] [], Node.cmd "b" 2 "" [] [], Node.cmd "c" 3 "" [] []]
      = Except.ok (Node.ns "" "" []
          [("a", Node.cmd "a" 1 "" [] []), ("b", Node.cmd "b" 2 "" [] []),
            ("c", Node.cmd "c" 3 "" [] [])]) ∧
      Node.run (Node.ns "" "" []
          [("a", Node.cmd "a" 1 "" [] []), ("b", Node.cmd "b" 2 "" [] []),
            ("c", Node.cmd "c" 3 "" [] [])]) ["a", "x"]
        = RunResult.usageError (ParseErr.unrecognizedArguments ["x"]) ∧
      RunResult.invokedAction (Node.run (Node.ns "" "" []
          [("a", Node.cmd "a" 1 "" [] []), ("b", Node.cmd "b" 2 "" [] []),
            ("c", Node.cmd "c" 3 "" [] [])]) ["a", "x"]) ≠ some 1 := by
  refine ⟨rfl, ?_, ?_⟩
  · exact run_ns_leaf_child_extra_tokens "" "" "a" 1 "" [] [] _ (by simp) ["x"] (by simp)
      (by simp [subparserMap, dictInsert, Node.name, dictLookup])
  · rw [run_ns_leaf_child_extra_tokens "" "" "a" 1 "" [] [] _ (by simp) ["x"] (by simp)
      (by simp [subparserMap, dictInsert, Node.name, dictLookup])]
    simp [RunResult.invokedAction]

/-- C2 witness: registration order b, c, a with the residual vector [x];
the token a alone invokes the action of a, the vector [a, x] invokes
neither the action of b nor of c and fails with the unrecognized-arguments
error. -/
theorem C2_witness :
    RunResult.invokedAction
        (Node.run
          (Node.ns "" "" []
            [("b", Node.cmd "b" 2 "" [] []), ("c", Node.cmd "c" 3 "" [] []),
              ("a", Node.cmd "a" 1 "" [] [])])
          ["a"]) = some 1 ∧
      RunResult.invokedAction
          (Node.run
            (Node.ns "" "" []
              [("b", Node.cmd "b" 2 "" [] []), ("c", Node.cmd "c" 3 "" [] []),
                ("a", Node.cmd "a" 1 "" [] [])])
            ["a", "x"]) ≠ some 2 ∧
      RunResult.invokedAction
          (Node.run
            (Node.ns "" "" []
              [("b", Node.cmd "b" 2 "" [] []), ("c", Node.cmd "c" 3 "" [] []),
                ("a", Node.cmd "a" 1 "" [] [])])
            ["a", "x"]) ≠ some 3 ∧
      ((["x"] : List String) ≠ [] →
        Node.run
            (Node.ns "" "" []
              [("b", Node.cmd "b" 2 "" [] []), ("c", Node.cmd "c" 3 "" [] []),
                ("a", Node.cmd "a" 1 "" [] [])])
            ["a", "x"]
          = RunResult.usageError (ParseErr.unrecognizedArguments ["x"])) :=
  C2_first_token_routes_only_through_child_a 1 2 3
    [Node.cmd "b" 2 "" [] [], Node.cmd "c" 3 "" [] [], Node.cmd "a" 1 "" [] []]
    (Node.ns "" "" []
      [("b", Node.cmd "b" 2 "" [] []), ("c", Node.cmd "c" 3 "" [] []),
        ("a", Node.cmd "a" 1 "" [] [])])
    ["x"]
    (Or.inr (Or.inr (Or.inr (Or.inl rfl)))) rfl (by decide) (by decide)

/-- Name consistency survives an insertion keyed by the inserted node's
name, which is how add_subcommand always inserts. -/
theorem nameConsistent_dictInsert {k : String} {v : Node} (hv : v.name = k) :
    ∀ {l : List (String × Node)}, nameConsistent l → nameConsistent (dictInsert k v l) := by
  intro l
  induction l with
  | nil =>
    intro _ p hp
    simp only [dictInsert, List.mem_singleton] at hp
    subst hp
    simpa using hv
  | cons hd tl ih =>
    intro hl p hp
    cases hd with
    | mk a b =>
      have htl : nameConsistent tl := fun q hq => hl q (List.mem_cons_of_mem _ hq)
      simp only [dictInsert] at hp
      by_cases h1 : a = k
      · rw [if_pos h1] at hp
        rcases List.mem_cons.mp hp with h2 | h2
        · subst h2; simpa using hv
        · exact hl _ (List.mem_cons_of_mem _ h2)
      · rw [if_neg h1] at hp
        rcases List.mem_cons.mp hp with h2 | h2
        · subst h2; exact hl (a, b) (List.mem_cons_self _ _)
        · exact ih htl _ h2

/-- C6: registering a second child under an existing name through
add_subcommand silently replaces the first (both calls succeed, no error),
the two-step registration equals the left-to-right add_subcommands of the
same list, the subcommand dictionary keeps unique keys, lookup of the name
yields the second node, and dispatch of that name invokes the second node's
action.  The well-formedness hypotheses (children registered under their own
names, unique keys) are the invariants every tree built through the
registration API satisfies. -/
theorem C6_reregistration_silently_replaces
    (rn rd : String) (subs : List (String × Node)) (n : String) (f1 f2 : Nat)
    (d1 d2 : String) (o1 o2 : List Mod)
    (hname : nameConsistent subs) (hnodup : (dictKeys subs).Nodup) :
    ∃ ns2,
      (Node.add_subcommand (Node.ns rn rd [] subs) (Node.cmd n f1 d1 o1 [])).bind
          (fun m => Node.add_subcommand m (Node.cmd n f2 d2 o2 [])) = Except.ok ns2 ∧
      Node.add_subcommands (Node.ns rn rd [] subs)
          [Node.cmd n f1 d1 o1 [], Node.cmd n f2 d2 o2 []] = Except.ok ns2 ∧
      dictLookup n ns2.subcommands = some (Node.cmd n f2 d2 o2 []) ∧
      (dictKeys ns2.subcommands).Nodup ∧
      RunResult.invokedAction (Node.run ns2 [n]) = some f2 := by
  refine ⟨Node.ns rn rd []
    (dictInsert n (Node.cmd n f2 d2 o2 []) (dictInsert n (Node.cmd n f1 d1 o1 []) subs)),
    ?_, ?_, ?_, ?_, ?_⟩
  · simp [Node.add_subcommand, Node.name, Except.bind]
  · simp [Node.add_subcommands, Node.add_subcommand, Node.name]
  · simp only [Node.subcommands]
    rw [dictLookup_dictInsert, if_pos rfl]
  · exact nodup_dictKeys_dictInsert (nodup_dictKeys_dictInsert hnodup)
  · have hcons : nameConsistent
        (dictInsert n (Node.cmd n f2 d2 o2 [])
          (dictInsert n (Node.cmd n f1 d1 o1 []) subs)) :=
      nameConsistent_dictInsert (show (Node.cmd n f2 d2 o2 []).name = n from rfl)
        (nameConsistent_dictInsert (show (Node.cmd n f1 d1 o1 []).name = n from rfl) hname)
    have hnodup2 : (dictKeys
        (dictInsert n (Node.cmd n f2 d2 o2 [])
          (dictInsert n (Node.cmd n f1 d1 o1 []) subs))).Nodup :=
      nodup_dictKeys_dictInsert (nodup_dictKeys_dictInsert hnodup)
    have hq : dictLookup n
        (subparserMap (dictInsert n (Node.cmd n f2 d2 o2 [])
          (dictInsert n (Node.cmd n f1 d1 o1 []) subs)))
        = some (Node.cmd n f2 d2 o2 []) := by
      rw [subparserMap_eq_self hcons hnodup2, dictLookup_dictInsert, if_pos rfl]
    rw [run_ns_selects_leaf_cmd rn rd n f2 d2 o2 [] _ dictInsert_ne_nil hq]
    rfl

/-- C6 witness: re-registering the name x replaces the first command; the
children mapping stays duplicate-free and dispatch of x invokes the second
action. -/
theorem C6_witness :
    ∃ ns2,
      (Node.add_subcommand (Node.ns "" "" [] []) (Node.cmd "x" 1 "" [] [])).bind
          (fun m => Node.add_subcommand m (Node.cmd "x" 2 "" [] [])) = Except.ok ns2 ∧
      Node.add_subcommands (Node.ns "" "" [] [])
          [Node.cmd "x" 1 "" [] [], Node.cmd "x" 2 "" [] []] = Except.ok ns2 ∧
      dictLookup "x" ns2.subcommands = some (Node.cmd "x" 2 "" [] []) ∧
      (dictKeys ns2.subcommands).Nodup ∧
      RunResult.invokedAction (Node.run ns2 ["x"]) = some 2 :=
  C6_reregistration_silently_replaces "" "" [] "x" 1 2 "" "" [] []
    (fun p hp => absurd hp (List.not_mem_nil p)) (by simp [dictKeys])

/-- Modifier arguments pass through the decorator argument filter
unchanged. -/
theorem filterMap_asMod_map_modifier :
    ∀ l : List Mod, (l.map MakeArg.modifier).filterMap MakeArg.asMod = l := by
  intro l
  induction l with
  | nil => rfl
  | cons m rest ih => simp [MakeArg.asMod, ih]

/-- C7: _make_command with a list of modifier arguments returns the
decorator capturing those modifiers; with exactly one bare callable it runs
do(fn) at once on that callable with no modifiers; the node do builds is
named after the wrapped function, every modifier is applied to it through
init_cmd in order, and the finished node is inserted into the current
namespace and returned. -/
theorem C7_make_command_decorator_and_bare_callable
    (self : Node) (k : CmdKind) (mods : List Mod) (f : Fn) :
    Node.make_command self k (mods.map MakeArg.modifier) = MakeResult.decorator mods ∧
      Node.make_command self k [MakeArg.callableFn f]
        = MakeResult.immediate (makeCommandDo self k [] f) ∧
      (mkCmdNode k f mods).name = f.name ∧
      (∀ rn rd : String, ∀ ro : List Mod, ∀ rsubs : List (String × Node),
        makeCommandDo (Node.ns rn rd ro rsubs) k mods f
          = Except.ok (mods.foldl (fun c m => m.initCmd c) (mkCmdNode k f mods),
              Node.ns rn rd ro
                (dictInsert (mods.foldl (fun c m => m.initCmd c) (mkCmdNode k f mods)).name
                  (mods.foldl (fun c m => m.initCmd c) (mkCmdNode k f mods)) rsubs))) := by
  refine ⟨?_, rfl, ?_, ?_⟩
  · cases mods with
    | nil => rfl
    | cons m rest =>
      cases rest with
      | nil => rfl
      | cons b rest2 =>
        have h2 := filterMap_asMod_map_modifier rest2
        simp only [List.filterMap_map] at h2
        simp [Node.make_command, MakeArg.asMod, h2]
  · cases k <;> rfl
  · intro rn rd ro rsubs
    simp [makeCommandDo, Node.add_subcommand, Except.map]

/-- C10: a rename modifier given to the command decorator acts through
init_cmd before add_subcommand runs, so the node enters the children mapping
under the overridden name, the mapping stays empty at the wrapped function
name, dispatch resolves the overridden name to the function and fails to
resolve the original function name; a namespace built with the rename
modifier likewise already carries the overridden name at construction,
before any insertion. -/
theorem C10_rename_applies_before_insertion
    (rn rd : String) (rsubs : List (String × Node)) (f : Fn) (newName : String)
    (hname : nameConsistent rsubs) (hnodup : (dictKeys rsubs).Nodup)
    (hfresh : dictLookup f.name rsubs = none) (hdiff : f.name ≠ newName) :
    ∃ c2 ns2,
      makeCommandDo (Node.ns rn rd [] rsubs) CmdKind.command [Mod.command_name newName] f
          = Except.ok (c2, ns2) ∧
      c2.name = newName ∧
      dictLookup newName ns2.subcommands = some c2 ∧
      dictLookup f.name ns2.subcommands = none ∧
      RunResult.invokedAction (Node.run ns2 [newName]) = some f.fn ∧
      RunResult.invokedAction (Node.run ns2 [f.name]) = none ∧
      (∀ nm0 : String, (mkNamespace nm0 [Mod.command_name newName]).name = newName) := by
  refine ⟨Node.cmd newName f.fn "" [Mod.command_name newName] [],
    Node.ns rn rd []
      (dictInsert newName (Node.cmd newName f.fn "" [Mod.command_name newName] []) rsubs),
    ?_, rfl, ?_, ?_, ?_, ?_, fun nm0 => rfl⟩
  · simp [makeCommandDo, mkCmdNode, Mod.initCmd, Node.setName, Node.add_subcommand,
      Node.name, Except.map]
  · simp only [Node.subcommands]
    rw [dictLookup_dictInsert, if_pos rfl]
  · simp only [Node.subcommands]
    rw [dictLookup_dictInsert, if_neg (fun h => hdiff h.symm)]
    exact hfresh
  · have hcons : nameConsistent
        (dictInsert newName (Node.cmd newName f.fn "" [Mod.command_name newName] []) rsubs) :=
      nameConsistent_dictInsert
        (show (Node.cmd newName f.fn "" [Mod.command_name newName] []).name = newName from rfl)
        hname
    have hnodup2 : (dictKeys
        (dictInsert newName (Node.cmd newName f.fn "" [Mod.command_name newName] [])
          rsubs)).Nodup :=
      nodup_dictKeys_dictInsert hnodup
    have hq : dictLookup newName
        (subparserMap
          (dictInsert newName (Node.cmd newName f.fn "" [Mod.command_name newName] []) rsubs))
        = some (Node.cmd newName f.fn "" [Mod.command_name newName] []) := by
      rw [subparserMap_eq_self hcons hnodup2, dictLookup_dictInsert, if_pos rfl]
    rw [run_ns_selects_leaf_cmd rn rd newName f.fn "" [Mod.command_name newName] [] _
      dictInsert_ne_nil hq]
    rfl
  · have hcons : nameConsistent
        (dictInsert newName (Node.cmd newName f.fn "" [Mod.command_name newName] []) rsubs) :=
      nameConsistent_dictInsert
        (show (Node.cmd newName f.fn "" [Mod.command_name newName] []).name = newName from rfl)
        hname
    have hnodup2 : (dictKeys
        (dictInsert newName (Node.cmd newName f.fn "" [Mod.command_name newName] [])
          rsubs)).Nodup :=
      nodup_dictKeys_dictInsert hnodup
    have hq : dictLookup f.name
        (subparserMap
          (dictInsert newName (Node.cmd newName f.fn "" [Mod.command_name newName] []) rsubs))
        = none := by
      rw [subparserMap_eq_self hcons hnodup2, dictLookup_dictInsert,
        if_neg (fun h => hdiff h.symm)]
      exact hfresh
    exact run_ns_unknown_token rn rd f.name [] _ dictInsert_ne_nil [] hq

/-- C10 witness: a function named fnname wrapped with the rename modifier
cli is registered and dispatched only under cli. -/
theorem C10_witness :
    ∃ c2 ns2,
      makeCommandDo (Node.ns "" "" [] []) CmdKind.command [Mod.command_name "cli"]
          (Fn.mk "fnname" 9)
          = Except.ok (c2, ns2) ∧
      c2.name = "cli" ∧
      dictLookup "cli" ns2.subcommands = some c2 ∧
      dictLookup (Fn.mk "fnname" 9).name ns2.subcommands = none ∧
      RunResult.invokedAction (Node.run ns2 ["cli"]) = some (Fn.mk "fnname" 9).fn ∧
      RunResult.invokedAction (Node.run ns2 [(Fn.mk "fnname" 9).name]) = none ∧
      (∀ nm0 : String, (mkNamespace nm0 [Mod.command_name "cli"]).name = "cli") :=
  C10_rename_applies_before_insertion "" "" [] (Fn.mk "fnname" 9) "cli"
    (fun p hp => absurd hp (List.not_mem_nil p)) (by simp [dictKeys]) rfl (by decide)

/-- Head of a dispatch trace: the token vector the node itself receives. -/
theorem parseTrace_cons_shape (n : Node) (ts : List String) :
    ∃ tr, parseTrace n ts = ts :: tr := by
  rw [parseTrace.eq_def]
  exact ⟨_, rfl⟩

/-- Every dispatch trace is strictly decreasing in residual token count:
each delegation into a chosen child consumes at least the child name before
the residual tokens are passed on. -/
theorem parseTrace_chain_aux :
    ∀ (bound : Nat) (n : Node), sizeOf n ≤ bound → ∀ ts : List String,
      List.Chain' (fun a b : List String => b.length < a.length) (parseTrace n ts) := by
  intro bound
  induction bound with
  | zero =>
    intro n hn
    exfalso
    cases n <;> simp at hn
  | succ b ih =>
    intro n hn ts
    rw [parseTrace.eq_def]
    cases n with
    | raw nm fn doc => simp
    | ns nm doc opts subs =>
      cases subs with
      | nil => simp
      | cons s ss =>
        cases ts with
        | nil => simp
        | cons tok rest =>
          simp only []
          split
          · rename_i child h
            obtain ⟨tr, htr⟩ := parseTrace_cons_shape child rest
            rw [htr]
            refine List.chain'_cons.mpr ⟨by simp, ?_⟩
            rw [← htr]
            refine ih child ?_ rest
            have h1 := sizeOf_lt_of_mem_values
              (mem_values_subparserMap (dictLookup_mem_values h))
            simp at hn h1
            omega
          · simp
    | cmd nm fn doc opts subs =>
      cases subs with
      | nil => simp
      | cons s ss =>
        cases ts with
        | nil => simp
        | cons tok rest =>
          simp only []
          split
          · rename_i child h
            obtain ⟨tr, htr⟩ := parseTrace_cons_shape child rest
            rw [htr]
            refine List.chain'_cons.mpr ⟨by simp, ?_⟩
            rw [← htr]
            refine ih child ?_ rest
            have h1 := sizeOf_lt_of_mem_values
              (mem_values_subparserMap (dictLookup_mem_values h))
            simp at hn h1
            omega
          · simp

/-- C9: the dispatch recursion terminates on every finite tree and every
token vector: along the dispatch trace each delegation passes strictly
fewer tokens to the chosen child (the child name is consumed first), and a
node with no subcommands (childless namespace or command, or any raw
command) produces the one-element trace, performing no recursion.  The
dispatcher parseNode itself is defined by recursion descending only into
tree children, which is how the embedding is accepted as terminating. -/
theorem C9_dispatch_recursion_terminates (n : Node) (tokens : List String) :
    List.Chain' (fun a b : List String => b.length < a.length) (parseTrace n tokens) ∧
      (∀ nm doc : String, ∀ opts : List Mod, ∀ fn : Nat,
        parseTrace (Node.ns nm doc opts []) tokens = [tokens] ∧
        parseTrace (Node.cmd nm fn doc opts []) tokens = [tokens] ∧
        parseTrace (Node.raw nm fn doc) tokens = [tokens]) := by
  refine ⟨parseTrace_chain_aux (sizeOf n) n le_rfl tokens, ?_⟩
  intro nm doc opts fn
  refine ⟨?_, ?_, ?_⟩ <;> rw [parseTrace.eq_def]

end Squadron
